import Mathlib

/-!
Verification of the loukai creator python runners (crepe_runner.py,
whisper_runner.py, demucs_runner.py) against their specification.

Numbers are modelled as exact rationals (`ℚ`); python's `round(x, n)`
(banker's rounding to `n` decimal places) is modelled by `pyRound`.
The transcendental `log2` used by the pitch pipeline is kept abstract:
every definition of the pitch post-processing is parametric in a
function `L : ℚ → ℚ` standing for base-2 logarithm.
-/

/-- Round a rational to the nearest integer, ties to even
(python's built-in rounding mode). -/
def roundHalfEven (q : ℚ) : ℤ :=
  let f := ⌊q⌋
  let r := q - f
  if r < 1/2 then f
  else if 1/2 < r then f + 1
  else if f % 2 = 0 then f else f + 1

/-- python's `round(q, n)`: round to `n` decimal places, ties to even. -/
def pyRound (q : ℚ) (n : ℕ) : ℚ :=
  (roundHalfEven (q * 10 ^ n) : ℚ) / 10 ^ n


/-- python slicing `l[::4]`: keep every 4th element starting at index 0. -/
def decim4 : List α → List α
  | [] => []
  | [a] => [a]
  | [a, _] => [a]
  | [a, _, _] => [a]
  | a :: _ :: _ :: _ :: rest => a :: decim4 rest


/-!
## Pitch pipeline (crepe_runner.py)

`crepePost` models lines 104-157 of `crepe_runner.py`: given the raw
frame sequence produced by estimation — a list of
`(frequency, confidence)` pairs — it computes the time axis, applies the
confidence gate, derives midi pitch, decimates by 4 and rounds,
producing the `pitch_data` object.  `crepeResult` models the final
result object (lines 168-177) including the summary statistics of
lines 112-115.
-/

/-- Device selection of crepe_runner.py lines 46-53: CUDA when available,
otherwise CPU (CPU is forced even when the vendor accelerator MPS is
available, because the viterbi decoder hangs on MPS). -/
def crepeSelectDevice (cudaAvailable mpsAvailable : Bool) : String :=
  if cudaAvailable then "cuda" else "cpu"

/-- The `pitch_data` object built at crepe_runner.py lines 149-157. -/
structure PitchData where
  time : List ℚ
  frequency : List ℚ
  midi : List ℚ
  confidence : List ℚ
  sample_rate : ℚ
  hop_length : ℕ
  model : String
  deriving Repr, DecidableEq

/-- Audio normalization of the sample rate (crepe_runner.py lines 72-77):
if the input rate differs from 16000 the audio is resampled and the rate
variable is set to 16000. -/
def crepeNormalizeRate (sr : ℚ) : ℚ :=
  if sr ≠ 16000 then 16000 else sr

/-- The gated frequency of a raw frame (crepe_runner.py line 121):
`frequency[confidence < 0.5] = 0`. -/
def gateFrame (p : ℚ × ℚ) : ℚ :=
  if p.2 < 1/2 then 0 else p.1

/-- Midi derivation (crepe_runner.py lines 125-127): zero by default, and
`69 + 12·log2(f/440)` where the (gated) frequency is positive.  `L` is
the abstract base-2 logarithm. -/
def midiOfFreq (L : ℚ → ℚ) (f : ℚ) : ℚ :=
  if 0 < f then 69 + 12 * L (f / 440) else 0

/-- Post-processing of raw estimation frames into `pitch_data`
(crepe_runner.py lines 104-157).  `sr0` is the sample rate of the input
file, `hop` the requested hop length, `frames` the raw
`(frequency, confidence)` pairs. -/
def crepePost (L : ℚ → ℚ) (sr0 : ℚ) (hop : ℕ) (modelCap : String)
    (frames : List (ℚ × ℚ)) : PitchData :=
  let sr := crepeNormalizeRate sr0
  let n := frames.length
  let time := List.map (fun i : ℕ => (i : ℚ) * hop / sr) (List.range n)
  let gated := frames.map gateFrame
  let midi := gated.map (midiOfFreq L)
  let confidence := frames.map Prod.snd
  { time := (decim4 time).map fun t => pyRound t 4
    frequency := (decim4 gated).map fun f => if 0 < f then pyRound f 2 else 0
    midi := (decim4 midi).map fun m => if 0 < m then pyRound m 2 else 0
    confidence := (decim4 confidence).map fun c => pyRound c 3
    sample_rate := sr
    hop_length := hop * 4
    model := modelCap }

/-- A raw frame is counted as voiced (crepe_runner.py line 113) when its
un-gated frequency is positive and its confidence exceeds 0.5. -/
def isVoiced (p : ℚ × ℚ) : Prop :=
  0 < p.1 ∧ 1/2 < p.2

instance (p : ℚ × ℚ) : Decidable (isVoiced p) := by
  unfold isVoiced; infer_instance

/-- The final result object of crepe_runner.py lines 168-177. -/
structure PitchResult where
  num_frames : ℕ
  duration : ℚ
  device : String
  voiced_percent : ℚ
  avg_confidence : ℚ
  pitch_data : Option PitchData
  output_file : Option String
  deriving Repr, DecidableEq

/-- Builds the success result of a pitch job (crepe_runner.py lines
112-115 and 168-177).  The statistics are computed over the full
un-decimated raw frame list, before the confidence gate is applied.
`voiced_percent` is written with rational division; the python code
divides by `len(frequency)` and yields NaN on an empty frame list, so
every theorem about `voiced_percent` assumes `frames ≠ []`. -/
def crepeResult (L : ℚ → ℚ) (cudaAvailable mpsAvailable : Bool) (sr0 : ℚ)
    (hop : ℕ) (modelCap : String) (outputPath : Option String)
    (frames : List (ℚ × ℚ)) : PitchResult :=
  let n := frames.length
  let validFrames := frames.filter fun p => decide (isVoiced p)
  let voicedPercent : ℚ := ((validFrames.length : ℚ) / n) * 100
  let avgConfidence : ℚ :=
    if validFrames.length ≠ 0 then
      (validFrames.map Prod.snd).sum / validFrames.length
    else 0
  let pd := crepePost L sr0 hop modelCap frames
  { num_frames := pd.time.length
    duration := if n ≠ 0 then ((n : ℚ) - 1) * hop / crepeNormalizeRate sr0 else 0
    device := crepeSelectDevice cudaAvailable mpsAvailable
    voiced_percent := pyRound voicedPercent 1
    avg_confidence := pyRound avgConfidence 3
    pitch_data := if outputPath.isSome then none else some pd
    output_file := outputPath }

/-!
## Transcript pipeline (whisper_runner.py)

`estimateWords` models whisper_runner.py lines 114-132: the text of a
segment is split on whitespace (python `str.split()`), and each token is
assigned an equal slice of the segment duration; start and end of each
word are then rounded to 3 decimals.  `whisperRun` models the terminal
channel behaviour of `main` including the stdout redirection of lines
94-100.
-/

/-- python `str.split()`: split on whitespace, discarding empty pieces. -/
def splitWSAux : List Char → List Char → List (List Char)
  | [], acc => if acc.isEmpty then [] else [acc.reverse]
  | c :: rest, acc =>
    if c.isWhitespace then
      if acc.isEmpty then splitWSAux rest []
      else acc.reverse :: splitWSAux rest []
    else splitWSAux rest (c :: acc)

/-- python `str.split()` with no separator: split on runs of whitespace,
discarding empty pieces (so leading and trailing whitespace contribute
nothing). -/
def pySplit (s : String) : List String :=
  (splitWSAux s.data []).map String.mk

/-- python `str.strip()`: drop leading and trailing whitespace. -/
def pyStrip (s : String) : String :=
  String.mk (((s.data.dropWhile Char.isWhitespace).reverse.dropWhile
    Char.isWhitespace).reverse)

/-- An estimated word interval (whisper_runner.py lines 123-127). -/
structure EstWord where
  word : String
  start : ℚ
  stop : ℚ
  deriving Repr, DecidableEq

/-- Word timing estimation for one segment (whisper_runner.py lines
109-128): strip the text, split it on whitespace, give each token an
equal share `word_duration = segment_duration / k` of the segment, with
`word_start = segment_start + i * word_duration` and
`word_end = word_start + word_duration`, each rounded to 3 decimals. -/
def estimateWords (text : String) (segStart segEnd : ℚ) : List EstWord :=
  let textWords := pySplit (pyStrip text)
  if textWords.isEmpty then []
  else
    let wordDuration := (segEnd - segStart) / textWords.length
    textWords.enum.map fun iw =>
      { word := iw.2
        start := pyRound (segStart + iw.1 * wordDuration) 3
        stop := pyRound (segStart + iw.1 * wordDuration + wordDuration) 3 }

/-- A transcript line (whisper_runner.py lines 135-140): segment text
with rounded segment boundaries and the estimated words. -/
structure TransLine where
  text : String
  start : ℚ
  stop : ℚ
  words : List EstWord
  deriving Repr, DecidableEq

/-- Builds the `lines` entry for one raw segment (whisper_runner.py
lines 108-140); segments whose text splits into no words produce no
line. -/
def lineOfSegment (text : String) (segStart segEnd : ℚ) : Option TransLine :=
  let segmentWords := estimateWords text segStart segEnd
  if segmentWords.isEmpty then none
  else some
    { text := pyStrip text
      start := pyRound segStart 3
      stop := pyRound segEnd 3
      words := segmentWords }

/-!
### Terminal channel behaviour of whisper_runner.py `main`

The runner writes its terminal JSON payload with `print(...)`, which
resolves `sys.stdout` at call time.  Lines 94-100 redirect `sys.stdout`
to `sys.stderr` around the `model.transcribe` call and restore it
afterwards; the restore is NOT in a `finally` block.  `whisperRun`
models which stream receives the terminal payload and the exit status,
as a function of which step fails.  A payload is a pair
`(channel, isSuccess)`.
-/

/-- Output streams of a runner process. -/
inductive Chan where
  | stdout
  | stderr
  deriving Repr, DecidableEq

/-- Terminal behaviour of whisper_runner.py `main`: the list of terminal
JSON payloads written, tagged with the stream that received them, and
the process exit status.  Each `Bool` argument tells whether the
corresponding step succeeds (in program order: an argument is present,
it parses as JSON, the input path is present, the model loads, the audio
loads, transcription returns).  The exception handler of lines 163-169
prints through `sys.stdout`, which during transcription (lines 94-100)
still points at stderr. -/
def whisperRun (hasArg parses hasInput modelLoads audioLoads
    transcribes : Bool) : List (Chan × Bool) × ℕ :=
  if ¬hasArg then ([(Chan.stdout, false)], 1)
  else if ¬parses then ([(Chan.stdout, false)], 1)
  else if ¬hasInput then ([(Chan.stdout, false)], 1)
  else if ¬modelLoads then ([(Chan.stdout, false)], 1)
  else if ¬audioLoads then ([(Chan.stdout, false)], 1)
  else if ¬transcribes then ([(Chan.stderr, false)], 1)
  else ([(Chan.stdout, true)], 0)

/-!
## Stem pipeline (demucs_runner.py)

The stem saving loop of demucs_runner.py lines 120-136 iterates over the
model's declared source list, writes one artifact per source and records
its path in the `stem_files` dict.  Any write failure (or a failure to
create the output directory, line 122) raises, is caught by the handler
of lines 149-155 and aborts the job with an error payload.  The dict is
modelled as an association list with python-dict update semantics.
-/

/-- Artifact path for one source (demucs_runner.py line 133):
`<output_dir>/<name>.wav`. -/
def stemPath (outputDir name : String) : String :=
  outputDir ++ "/" ++ name ++ ".wav"

/-- python dict assignment `m[k] = v`: overwrite in place when the key
exists, append otherwise. -/
def insertKV (m : List (String × String)) (k v : String) :
    List (String × String) :=
  if k ∈ m.map Prod.fst then
    m.map fun p => if p.1 = k then (k, v) else p
  else m ++ [(k, v)]

/-- The stem saving loop (demucs_runner.py lines 124-136).  `write name`
models `sf.write` for the given source, succeeding or raising. -/
def saveStemsGo (write : String → Except String Unit) (outputDir : String)
    (acc : List (String × String)) :
    List String → Except String (List (String × String))
  | [] => .ok acc
  | name :: rest =>
    match write name with
    | .error e => .error e
    | .ok _ => saveStemsGo write outputDir
        (insertKV acc name (stemPath outputDir name)) rest

/-- Stem materialization (demucs_runner.py lines 120-136): create the
output directory, then save every declared source.  Either the whole
mapping is produced or the job fails with the first raised error. -/
def demucsStems (mkdir : Except String Unit)
    (write : String → Except String Unit) (outputDir : String)
    (sources : List String) : Except String (List (String × String)) :=
  match mkdir with
  | .error e => .error e
  | .ok _ => saveStemsGo write outputDir [] sources

/-!
## Helper lemmas about rounding and decimation
-/

theorem roundHalfEven_zero : roundHalfEven 0 = 0 := by
  norm_num [roundHalfEven]

theorem pyRound_zero (n : ℕ) : pyRound 0 n = 0 := by
  simp [pyRound, roundHalfEven_zero]

/-- The rounding never drops below an integer lower bound. -/
theorem le_roundHalfEven {k : ℤ} {q : ℚ} (h : (k : ℚ) ≤ q) :
    k ≤ roundHalfEven q := by
  have hf : k ≤ ⌊q⌋ := Int.le_floor.mpr h
  unfold roundHalfEven
  dsimp only
  split
  · exact hf
  · split
    · omega
    · split
      · exact hf
      · omega

/-- If `1/2 ≤ c` then the 3-decimal rounding of `c` is still `≥ 1/2`. -/
theorem half_le_pyRound3 {c : ℚ} (h : 1/2 ≤ c) : 1/2 ≤ pyRound c 3 := by
  have h500 : ((500 : ℤ) : ℚ) ≤ c * 10 ^ 3 := by push_cast; nlinarith
  have hr : (500 : ℤ) ≤ roundHalfEven (c * 10 ^ 3) := le_roundHalfEven h500
  have hrQ : (500 : ℚ) ≤ (roundHalfEven (c * 10 ^ 3) : ℚ) := by exact_mod_cast hr
  unfold pyRound
  have hmono : (500 : ℚ) / 10 ^ 3 ≤ (roundHalfEven (c * 10 ^ 3) : ℚ) / 10 ^ 3 :=
    (div_le_div_right (by norm_num : (0:ℚ) < 10 ^ 3)).mpr hrQ
  calc (1/2 : ℚ) = 500 / 10 ^ 3 := by norm_num
    _ ≤ _ := hmono

/-- The decimated list `l[::4]` has length `⌈|l| / 4⌉`. -/
theorem decim4_length (l : List α) : (decim4 l).length = (l.length + 3) / 4 := by
  induction l using decim4.induct with
  | case1 => simp [decim4]
  | case2 a => simp [decim4]
  | case3 a b => simp [decim4]
  | case4 a b c => simp [decim4]
  | case5 a b c d rest ih =>
    simp only [decim4, List.length_cons, ih]
    omega

/-- Element `i` of `l[::4]` is element `4*i` of `l`. -/
theorem decim4_getElem? (l : List α) (i : ℕ) :
    (decim4 l)[i]? = l[4 * i]? := by
  induction l using decim4.induct generalizing i with
  | case1 => simp [decim4]
  | case2 a =>
    cases i with
    | zero => simp [decim4]
    | succ j => simp [decim4, Nat.mul_succ]
  | case3 a b =>
    cases i with
    | zero => simp [decim4]
    | succ j =>
      have h4 : 4 * (j + 1) = 4 * j + 3 + 1 := by omega
      simp [decim4, h4]
  | case4 a b c =>
    cases i with
    | zero => simp [decim4]
    | succ j =>
      have h4 : 4 * (j + 1) = 4 * j + 3 + 1 := by omega
      simp [decim4, h4]
  | case5 a b c d rest ih =>
    cases i with
    | zero => simp [decim4]
    | succ j =>
      have h4 : 4 * (j + 1) = (4 * j) + 3 + 1 := by omega
      simp only [decim4, h4, List.getElem?_cons_succ, ih]

/-- Every element of `l[::4]` is an element of `l`. -/
theorem decim4_subset (l : List α) : ∀ a ∈ decim4 l, a ∈ l := by
  induction l using decim4.induct with
  | case1 => simp [decim4]
  | case2 a => simp [decim4]
  | case3 a b => simp [decim4]
  | case4 a b c => simp [decim4]
  | case5 a b c d rest ih =>
    intro x hx
    rcases List.mem_cons.mp hx with h | h
    · simp [h]
    · have := ih x h
      simp [this]

/-!
## Helper lemmas about the dict model and the saving loop
-/

theorem insertKV_mem_keys (m : List (String × String)) (k v s : String) :
    s ∈ (insertKV m k v).map Prod.fst ↔ s = k ∨ s ∈ m.map Prod.fst := by
  unfold insertKV
  split
  · rename_i hk
    rw [List.map_map]
    have hkeys : m.map (Prod.fst ∘ fun p => if p.1 = k then (k, v) else p)
        = m.map Prod.fst := by
      apply List.map_congr_left
      intro p _
      by_cases hp : p.1 = k
      · simp [hp]
      · simp [hp]
    rw [hkeys]
    constructor
    · exact Or.inr
    · rintro (rfl | h)
      · exact hk
      · exact h
  · simp only [List.map_append, List.map_cons, List.map_nil, List.mem_append,
      List.mem_cons, List.not_mem_nil, or_false]
    tauto

theorem insertKV_keys_nodup (m : List (String × String)) (k v : String)
    (h : (m.map Prod.fst).Nodup) :
    ((insertKV m k v).map Prod.fst).Nodup := by
  unfold insertKV
  split
  · rename_i hk
    rw [List.map_map]
    have hkeys : m.map (Prod.fst ∘ fun p => if p.1 = k then (k, v) else p)
        = m.map Prod.fst := by
      apply List.map_congr_left
      intro p _
      by_cases hp : p.1 = k
      · simp [hp]
      · simp [hp]
    rw [hkeys]; exact h
  · rename_i hk
    simp only [List.map_append, List.map_cons, List.map_nil]
    rw [List.nodup_append]
    refine ⟨h, List.nodup_singleton k, ?_⟩
    intro a ha hb
    simp only [List.mem_singleton] at hb
    exact hk (hb ▸ ha)

theorem saveStemsGo_ok (write : String → Except String Unit) (outputDir : String)
    (l : List String) :
    ∀ (acc m : List (String × String)),
      saveStemsGo write outputDir acc l = .ok m →
      (acc.map Prod.fst).Nodup →
      ((m.map Prod.fst).Nodup ∧
        (∀ s, s ∈ m.map Prod.fst ↔ s ∈ l ∨ s ∈ acc.map Prod.fst) ∧
        ∀ s ∈ l, write s = .ok ()) := by
  induction l with
  | nil =>
    intro acc m hok hnd
    simp only [saveStemsGo] at hok
    cases hok
    refine ⟨hnd, fun s => ?_, fun s hs => absurd hs (List.not_mem_nil s)⟩
    simp
  | cons name rest ih =>
    intro acc m hok hnd
    simp only [saveStemsGo] at hok
    cases hw : write name with
    | error e => rw [hw] at hok; cases hok
    | ok u =>
      rw [hw] at hok
      have hnd' := insertKV_keys_nodup acc name (stemPath outputDir name) hnd
      obtain ⟨h1, h2, h3⟩ := ih _ m hok hnd'
      refine ⟨h1, fun s => ?_, fun s hs => ?_⟩
      · rw [h2 s, insertKV_mem_keys]
        constructor
        · rintro (h | rfl | h)
          · exact Or.inl (List.mem_cons_of_mem _ h)
          · exact Or.inl (List.mem_cons_self _ _)
          · exact Or.inr h
        · rintro (h | h)
          · rcases List.mem_cons.mp h with rfl | h
            · exact Or.inr (Or.inl rfl)
            · exact Or.inl h
          · exact Or.inr (Or.inr h)
      · rcases List.mem_cons.mp hs with rfl | h
        · cases u; exact hw
        · exact h3 s h

/-!
## Claims
-/

/-- C5: for every successful stems result, the key set of the returned
stems mapping equals exactly the separation model's declared source
list — no extra keys, no missing keys, each declared source exactly
once — and any failure to create the output directory or write a stem
artifact is job-fatal: the job produces an error, and a success value
implies every artifact write succeeded (no partial success). -/
theorem stems_exact_keys (mkdir : Except String Unit)
    (write : String → Except String Unit) (outputDir : String)
    (sources : List String) :
    (∀ m, demucsStems mkdir write outputDir sources = .ok m →
      (∀ s, (m.map Prod.fst).count s = if s ∈ sources then 1 else 0) ∧
      ∀ s ∈ sources, write s = .ok ()) ∧
    (∀ e, mkdir = .error e →
      demucsStems mkdir write outputDir sources = .error e) := by
  constructor
  · intro m hok
    have hmk : ∃ u, mkdir = .ok u := by
      cases mkdir with
      | error e => simp [demucsStems] at hok
      | ok u => exact ⟨u, rfl⟩
    obtain ⟨u, rfl⟩ := hmk
    simp only [demucsStems] at hok
    obtain ⟨hnd, hmem, hw⟩ :=
      saveStemsGo_ok write outputDir sources [] m hok (by simp)
    refine ⟨fun s => ?_, hw⟩
    have hmem' : s ∈ m.map Prod.fst ↔ s ∈ sources := by
      rw [hmem s]; simp
    by_cases hs : s ∈ sources
    · rw [if_pos hs]
      exact List.count_eq_one_of_mem hnd (hmem'.mpr hs)
    · rw [if_neg hs]
      exact List.count_eq_zero_of_not_mem (fun hc => hs (hmem'.mp hc))
  · intro e he
    rw [he]
    rfl

/-- Witness for C5: a four-source model with all writes succeeding
produces exactly the four declared keys; a key not declared by the model
("piano") does not appear. -/
theorem stems_exact_keys_witness :
    demucsStems (.ok ()) (fun _ => .ok ()) "out"
        ["drums", "bass", "other", "vocals"]
      = .ok [("drums", "out/drums.wav"), ("bass", "out/bass.wav"),
             ("other", "out/other.wav"), ("vocals", "out/vocals.wav")] ∧
    ([("drums", "out/drums.wav"), ("bass", "out/bass.wav"),
      ("other", "out/other.wav"),
      ("vocals", "out/vocals.wav")].map Prod.fst).count "vocals" = 1 ∧
    ([("drums", "out/drums.wav"), ("bass", "out/bass.wav"),
      ("other", "out/other.wav"),
      ("vocals", "out/vocals.wav")].map Prod.fst).count "piano" = 0 := by
  have heval : demucsStems (.ok ()) (fun _ => .ok ()) "out"
      ["drums", "bass", "other", "vocals"]
      = .ok [("drums", "out/drums.wav"), ("bass", "out/bass.wav"),
             ("other", "out/other.wav"), ("vocals", "out/vocals.wav")] := by
    simp [demucsStems, saveStemsGo, insertKV, stemPath]
  refine ⟨heval, ?_, ?_⟩
  · have := ((stems_exact_keys (.ok ()) (fun _ => .ok ()) "out"
        ["drums", "bass", "other", "vocals"]).1 _ heval).1 "vocals"
    rw [this]
    simp
  · have := ((stems_exact_keys (.ok ()) (fun _ => .ok ()) "out"
        ["drums", "bass", "other", "vocals"]).1 _ heval).1 "piano"
    rw [this]
    simp

/-- Evaluation rule: rounding lands on the floor when the fractional
part is below one half. -/
theorem roundHalfEven_eq_low {q : ℚ} {f : ℤ} (hf : ⌊q⌋ = f)
    (hr : q - f < 1/2) : roundHalfEven q = f := by
  unfold roundHalfEven
  rw [hf]
  simp only
  rw [if_pos hr]

/-- Evaluation rule: rounding lands on the floor plus one when the
fractional part is above one half. -/
theorem roundHalfEven_eq_high {q : ℚ} {f : ℤ} (hf : ⌊q⌋ = f)
    (hr : 1/2 < q - f) : roundHalfEven q = f + 1 := by
  unfold roundHalfEven
  rw [hf]
  simp only
  rw [if_neg (by linarith), if_pos hr]

/-- Closed form of the `i`-th estimated word of a segment. -/
theorem estimateWords_getElem? (text : String) (a b : ℚ) (i : ℕ)
    (hi : i < (pySplit (pyStrip text)).length) :
    (estimateWords text a b)[i]? = some
      { word := (pySplit (pyStrip text)).getD i ""
        start := pyRound
          (a + i * ((b - a) / (pySplit (pyStrip text)).length)) 3
        stop := pyRound
          (a + i * ((b - a) / (pySplit (pyStrip text)).length)
            + (b - a) / (pySplit (pyStrip text)).length) 3 } := by
  unfold estimateWords
  have hne : pySplit (pyStrip text) ≠ [] :=
    List.ne_nil_of_length_pos (by omega)
  rw [if_neg (by simpa using hne)]
  simp only [List.getElem?_map, List.getElem?_enum,
    List.getElem?_eq_getElem hi, Option.map_some, Option.some.injEq]
  rw [List.getD_eq_getElem?_getD, List.getElem?_eq_getElem hi]
  rfl

/-- C4 (amended): the emitted word boundaries are the uniform tiling
points `start + i·(duration/k)` rounded to 3 decimals; consecutive
words share their boundary exactly, the first word starts at the line's
rounded start and the last word ends at the line's rounded end (the line
object stores exactly these rounded segment bounds), and interval
lengths are equal only before the 3-decimal rounding. -/
theorem word_tiling (text : String) (a b : ℚ) (i : ℕ)
    (hi : i < (pySplit (pyStrip text)).length) :
    ((estimateWords text a b).getD i ⟨"", 0, 0⟩).start
        = pyRound (a + i * ((b - a) / (pySplit (pyStrip text)).length)) 3 ∧
    ((estimateWords text a b).getD i ⟨"", 0, 0⟩).stop
        = pyRound (a + (i + 1) * ((b - a) / (pySplit (pyStrip text)).length)) 3 ∧
    (i + 1 < (pySplit (pyStrip text)).length →
      ((estimateWords text a b).getD i ⟨"", 0, 0⟩).stop
        = ((estimateWords text a b).getD (i + 1) ⟨"", 0, 0⟩).start) ∧
    (i = 0 →
      ((estimateWords text a b).getD i ⟨"", 0, 0⟩).start = pyRound a 3) ∧
    (i + 1 = (pySplit (pyStrip text)).length →
      ((estimateWords text a b).getD i ⟨"", 0, 0⟩).stop = pyRound b 3) := by
  have hw := estimateWords_getElem? text a b i hi
  have hgetD : (estimateWords text a b).getD i ⟨"", 0, 0⟩
      = { word := (pySplit (pyStrip text)).getD i ""
          start := pyRound
            (a + i * ((b - a) / (pySplit (pyStrip text)).length)) 3
          stop := pyRound
            (a + i * ((b - a) / (pySplit (pyStrip text)).length)
              + (b - a) / (pySplit (pyStrip text)).length) 3 } := by
    rw [List.getD_eq_getElem?_getD, hw]; rfl
  have harith : a + i * ((b - a) / (pySplit (pyStrip text)).length)
      + (b - a) / (pySplit (pyStrip text)).length
      = a + (i + 1 : ℕ) * ((b - a) / (pySplit (pyStrip text)).length) := by
    push_cast
    ring
  refine ⟨by rw [hgetD], ?_, ?_, ?_, ?_⟩
  · rw [hgetD]
    simp only
    rw [harith]
    push_cast
    ring_nf
  · intro hnext
    have hw' := estimateWords_getElem? text a b (i + 1) hnext
    have hgetD' : (estimateWords text a b).getD (i + 1) ⟨"", 0, 0⟩
        = { word := (pySplit (pyStrip text)).getD (i + 1) ""
            start := pyRound
              (a + (i + 1 : ℕ) * ((b - a) / (pySplit (pyStrip text)).length)) 3
            stop := pyRound
              (a + (i + 1 : ℕ) * ((b - a) / (pySplit (pyStrip text)).length)
                + (b - a) / (pySplit (pyStrip text)).length) 3 } := by
      rw [List.getD_eq_getElem?_getD, hw']; rfl
    rw [hgetD, hgetD']
    simp only
    rw [harith]
  · intro h0
    subst h0
    rw [hgetD]
    simp
  · intro hlast
    rw [hgetD]
    simp only
    rw [harith]
    congr 1
    have hkpos : (0 : ℚ) < ((pySplit (pyStrip text)).length : ℚ) := by
      have : 0 < (pySplit (pyStrip text)).length := by omega
      exact_mod_cast this
    have hk : ((pySplit (pyStrip text)).length : ℚ) ≠ 0 := ne_of_gt hkpos
    have hkcast : (((i : ℕ) + 1 : ℕ) : ℚ)
        = ((pySplit (pyStrip text)).length : ℚ) := by
      exact_mod_cast hlast
    rw [hkcast]
    field_simp

/-- Witness for C4 (amended): the segment `{text: "la la la", start: 0,
end: 3}` yields a middle word spanning exactly `[1, 2]`, contiguous with
the third word. -/
theorem word_tiling_witness :
    ((estimateWords "la la la" 0 3).getD 1 ⟨"", 0, 0⟩).start = 1 ∧
    ((estimateWords "la la la" 0 3).getD 1 ⟨"", 0, 0⟩).stop = 2 ∧
    ((estimateWords "la la la" 0 3).getD 1 ⟨"", 0, 0⟩).stop
      = ((estimateWords "la la la" 0 3).getD 2 ⟨"", 0, 0⟩).start := by
  obtain ⟨h1, h2, h3, _, _⟩ := word_tiling "la la la" 0 3 1 (by decide)
  have hlen : (pySplit (pyStrip "la la la")).length = 3 := rfl
  rw [hlen] at h1 h2
  refine ⟨?_, ?_, h3 (by decide)⟩
  · rw [h1]
    norm_num [pyRound, roundHalfEven]
  · rw [h2]
    norm_num [pyRound, roundHalfEven]

/-- Counterexample for C4: for the segment `{text: "a b c", start: 0,
end: 1}` the claim puts the end of word 0 at
`line.start + 1·(duration/3) = 1/3`, but the runner emits the 3-decimal
rounding `0.333`. -/
theorem word_tiling_counterexample :
    ((estimateWords "a b c" 0 1).getD 0 ⟨"", 0, 0⟩).stop
      ≠ 0 + (0 + 1) * ((1 - 0) / 3) := by
  have hw := estimateWords_getElem? "a b c" 0 1 0 (by decide)
  have hstop : ((estimateWords "a b c" 0 1).getD 0 ⟨"", 0, 0⟩).stop
      = pyRound (0 + (0 : ℕ) * ((1 - 0) / (pySplit (pyStrip "a b c")).length)
          + (1 - 0) / (pySplit (pyStrip "a b c")).length) 3 := by
    rw [List.getD_eq_getElem?_getD, hw]
    rfl
  have hlen : (pySplit (pyStrip "a b c")).length = 3 := rfl
  rw [hstop, hlen]
  have harg : (0 + ((0 : ℕ) : ℚ) * ((1 - 0) / (3 : ℕ)) + (1 - 0) / (3 : ℕ) : ℚ)
      = 1/3 := by
    push_cast
    norm_num
  rw [harg]
  have hval : pyRound (1/3) 3 = 333/1000 := by
    unfold pyRound
    rw [roundHalfEven_eq_low (f := 333) (by norm_num [Int.floor_eq_iff])
      (by norm_num)]
    norm_num
  rw [hval]
  norm_num

/-- C2 (code evidence): when the transcription call itself raises, the
error payload is printed while `sys.stdout` is still redirected to
stderr (whisper_runner.py lines 94-100 restore the redirect only on the
success path), so the result channel receives no terminal payload at
all, although the exit status is 1.  This contradicts the guarantee of
exactly one terminal payload on the result channel. -/
theorem single_terminal_payload_bug :
    ((whisperRun true true true true true false).1.filter
        fun e => e.1 == Chan.stdout) = [] ∧
    (whisperRun true true true true true false).2 = 1 := by
  constructor <;> rfl

/-- Closed form of the `i`-th entry of the decimated confidence series. -/
theorem crepePost_confidence_getElem? (L : ℚ → ℚ) (sr0 : ℚ) (hop : ℕ)
    (mc : String) (frames : List (ℚ × ℚ)) (i : ℕ) :
    (crepePost L sr0 hop mc frames).confidence[i]?
      = (frames[4 * i]?).map fun p => pyRound p.2 3 := by
  simp only [crepePost, List.getElem?_map, decim4_getElem?, Option.map_map]
  rfl

/-- Closed form of the `i`-th entry of the decimated frequency series. -/
theorem crepePost_frequency_getElem? (L : ℚ → ℚ) (sr0 : ℚ) (hop : ℕ)
    (mc : String) (frames : List (ℚ × ℚ)) (i : ℕ) :
    (crepePost L sr0 hop mc frames).frequency[i]?
      = (frames[4 * i]?).map fun p =>
          if 0 < gateFrame p then pyRound (gateFrame p) 2 else 0 := by
  simp only [crepePost, List.getElem?_map, decim4_getElem?, Option.map_map]
  rfl

/-- Closed form of the `i`-th entry of the decimated midi series. -/
theorem crepePost_midi_getElem? (L : ℚ → ℚ) (sr0 : ℚ) (hop : ℕ)
    (mc : String) (frames : List (ℚ × ℚ)) (i : ℕ) :
    (crepePost L sr0 hop mc frames).midi[i]?
      = (frames[4 * i]?).map fun p =>
          if 0 < midiOfFreq L (gateFrame p)
          then pyRound (midiOfFreq L (gateFrame p)) 2 else 0 := by
  simp only [crepePost, List.getElem?_map, List.map_map, decim4_getElem?,
    Option.map_map]
  rfl

/-- C7: in every pitch result the four output series time, frequency,
midi and confidence have equal length, namely `⌈rawFrameCount / 4⌉`
(written `(n + 3) / 4` in natural division) for the fixed decimation
factor 4 applied to the `rawFrameCount` frames produced by
estimation. -/
theorem series_lengths (L : ℚ → ℚ) (sr0 : ℚ) (hop : ℕ) (mc : String)
    (frames : List (ℚ × ℚ)) :
    (crepePost L sr0 hop mc frames).time.length
        = (crepePost L sr0 hop mc frames).frequency.length ∧
    (crepePost L sr0 hop mc frames).time.length
        = (crepePost L sr0 hop mc frames).midi.length ∧
    (crepePost L sr0 hop mc frames).time.length
        = (crepePost L sr0 hop mc frames).confidence.length ∧
    (crepePost L sr0 hop mc frames).time.length
        = (frames.length + 3) / 4 := by
  have htime : (crepePost L sr0 hop mc frames).time.length
      = (frames.length + 3) / 4 := by
    simp only [crepePost]
    rw [List.length_map, decim4_length, List.length_map, List.length_range]
  have hfreq : (crepePost L sr0 hop mc frames).frequency.length
      = (frames.length + 3) / 4 := by
    simp only [crepePost]
    rw [List.length_map, decim4_length, List.length_map]
  have hmidi : (crepePost L sr0 hop mc frames).midi.length
      = (frames.length + 3) / 4 := by
    simp only [crepePost]
    rw [List.length_map, decim4_length, List.length_map, List.length_map]
  have hconf : (crepePost L sr0 hop mc frames).confidence.length
      = (frames.length + 3) / 4 := by
    simp only [crepePost]
    rw [List.length_map, decim4_length, List.length_map]
  exact ⟨htime.trans hfreq.symm, htime.trans hmidi.symm,
    htime.trans hconf.symm, htime⟩

/-- C3: at every index of the output series, a reported confidence below
0.5 forces the reported frequency and midi to 0, and the reported
confidence is the un-gated model output (rounded to 3 decimals for
reporting, like every series, but never modified by the gate). -/
theorem confidence_gate (L : ℚ → ℚ) (sr0 : ℚ) (hop : ℕ) (mc : String)
    (frames : List (ℚ × ℚ)) (i : ℕ)
    (hi : i < (crepePost L sr0 hop mc frames).confidence.length) :
    ((crepePost L sr0 hop mc frames).confidence.getD i 0 < 1/2 →
      (crepePost L sr0 hop mc frames).frequency.getD i 0 = 0 ∧
      (crepePost L sr0 hop mc frames).midi.getD i 0 = 0) ∧
    (crepePost L sr0 hop mc frames).confidence.getD i 0
      = pyRound ((frames.map Prod.snd).getD (4 * i) 0) 3 := by
  have hlen : (crepePost L sr0 hop mc frames).confidence.length
      = (frames.length + 3) / 4 := by
    simp [crepePost, decim4_length]
  have h4i : 4 * i < frames.length := by
    rw [hlen] at hi
    omega
  obtain ⟨p, hsome⟩ : ∃ p, frames[4 * i]? = some p :=
    ⟨_, List.getElem?_eq_getElem h4i⟩
  have hconf : (crepePost L sr0 hop mc frames).confidence.getD i 0
      = pyRound p.2 3 := by
    rw [List.getD_eq_getElem?_getD, crepePost_confidence_getElem?, hsome]
    rfl
  have hfreq : (crepePost L sr0 hop mc frames).frequency.getD i 0
      = if 0 < gateFrame p
        then pyRound (gateFrame p) 2 else 0 := by
    rw [List.getD_eq_getElem?_getD, crepePost_frequency_getElem?, hsome]
    rfl
  have hmidi : (crepePost L sr0 hop mc frames).midi.getD i 0
      = if 0 < midiOfFreq L (gateFrame p)
        then pyRound (midiOfFreq L (gateFrame p)) 2
        else 0 := by
    rw [List.getD_eq_getElem?_getD, crepePost_midi_getElem?, hsome]
    rfl
  constructor
  · intro hlt
    rw [hconf] at hlt
    have hc : p.2 < 1/2 := by
      by_contra hge
      push_neg at hge
      exact absurd (half_le_pyRound3 hge) (not_le.mpr hlt)
    have hg : gateFrame p = 0 := if_pos hc
    constructor
    · rw [hfreq, hg]
      norm_num
    · rw [hmidi, hg]
      have hm : midiOfFreq L 0 = 0 := by norm_num [midiOfFreq]
      rw [hm]
      norm_num
  · rw [hconf, List.getD_eq_getElem?_getD, List.getElem?_map, hsome]
    rfl

/-- Witness for C3: one frame with confidence 0.3 (below the gate); the
reported confidence is 0.3 itself and frequency and midi are gated to
zero. -/
theorem confidence_gate_witness :
    0 < (crepePost (fun _ => 0) 16000 512 "tiny"
        [((100 : ℚ), (3/10 : ℚ))]).confidence.length ∧
    (crepePost (fun _ => 0) 16000 512 "tiny"
        [((100 : ℚ), (3/10 : ℚ))]).frequency.getD 0 0 = 0 ∧
    (crepePost (fun _ => 0) 16000 512 "tiny"
        [((100 : ℚ), (3/10 : ℚ))]).midi.getD 0 0 = 0 ∧
    (crepePost (fun _ => 0) 16000 512 "tiny"
        [((100 : ℚ), (3/10 : ℚ))]).confidence.getD 0 0
      = pyRound (([((100 : ℚ), (3/10 : ℚ))].map Prod.snd).getD 0 0) 3 := by
  have hlen : 0 < (crepePost (fun _ => 0) 16000 512 "tiny"
      [((100 : ℚ), (3/10 : ℚ))]).confidence.length := by
    simp [crepePost, decim4]
  obtain ⟨hgate, hconf⟩ :=
    confidence_gate (fun _ => 0) 16000 512 "tiny" [((100 : ℚ), (3/10 : ℚ))]
      0 hlen
  have hcv : (crepePost (fun _ => 0) 16000 512 "tiny"
      [((100 : ℚ), (3/10 : ℚ))]).confidence.getD 0 0 = 3/10 := by
    rw [hconf]
    have : (([((100 : ℚ), (3/10 : ℚ))].map Prod.snd).getD 0 0) = 3/10 := rfl
    rw [this]
    unfold pyRound
    rw [roundHalfEven_eq_low (f := 300) (by norm_num [Int.floor_eq_iff])
      (by norm_num)]
    norm_num
  obtain ⟨hf, hm⟩ := hgate (by rw [hcv]; norm_num)
  exact ⟨hlen, hf, hm, hconf⟩

/-- C8 (amended): for every output frame whose reported frequency is
positive, the reported midi value is `round(69 + 12·log2(f/440), 2)`
computed from the un-rounded raw frequency `f` — except that when the
formula value is not positive (raw frequency below about 8.18 Hz) the
runner reports 0 instead, because the output clamp `round(m, 2) if m > 0
else 0` also applies to midi. -/
theorem midi_formula (L : ℚ → ℚ) (sr0 : ℚ) (hop : ℕ) (mc : String)
    (frames : List (ℚ × ℚ)) (i : ℕ)
    (hfreq : 0 < (crepePost L sr0 hop mc frames).frequency.getD i 0) :
    (crepePost L sr0 hop mc frames).midi.getD i 0
      = if 0 < 69 + 12 * L ((frames.map Prod.fst).getD (4 * i) 0 / 440)
        then pyRound
          (69 + 12 * L ((frames.map Prod.fst).getD (4 * i) 0 / 440)) 2
        else 0 := by
  rw [List.getD_eq_getElem?_getD, crepePost_frequency_getElem?] at hfreq
  cases h4 : frames[4 * i]? with
  | none =>
    rw [h4] at hfreq
    simp only [Option.map_none', Option.getD_none] at hfreq
    exact absurd hfreq (lt_irrefl 0)
  | some p =>
    rw [h4] at hfreq
    simp only [Option.map_some', Option.getD_some] at hfreq
    have hg : 0 < gateFrame p := by
      by_contra hngate
      rw [if_neg hngate] at hfreq
      exact lt_irrefl 0 hfreq
    have hc : ¬ p.2 < 1/2 := by
      intro hc
      rw [gateFrame, if_pos hc] at hg
      exact lt_irrefl 0 hg
    have hgp : gateFrame p = p.1 := if_neg hc
    have hfst : (frames.map Prod.fst).getD (4 * i) 0 = p.1 := by
      rw [List.getD_eq_getElem?_getD, List.getElem?_map, h4]
      rfl
    have hmv : midiOfFreq L (gateFrame p) = 69 + 12 * L (p.1 / 440) := by
      rw [hgp, midiOfFreq, if_pos (hgp ▸ hg)]
    rw [List.getD_eq_getElem?_getD, crepePost_midi_getElem?, h4]
    simp only [Option.map_some', Option.getD_some]
    rw [hmv, hfst]

/-- Counterexample for C8: with a raw frame at 1 Hz (confidence 0.9) the
formula gives `midi = round(69 + 12·log2(1/440), 2) ≈ -36.36`, but the
runner reports 0 because non-positive midi values are clamped; the frame
is still voiced in the output (reported frequency 1 > 0). -/
theorem midi_formula_counterexample :
    0 < (crepePost (fun _ => -439/50) 16000 512 "tiny"
        [((1 : ℚ), (9/10 : ℚ))]).frequency.getD 0 0 ∧
    (crepePost (fun _ => -439/50) 16000 512 "tiny"
        [((1 : ℚ), (9/10 : ℚ))]).midi.getD 0 0
      ≠ pyRound (69 + 12 * ((fun _ : ℚ => (-439/50 : ℚ)) (1 / 440))) 2 := by
  have hg : gateFrame ((1 : ℚ), (9/10 : ℚ)) = 1 := by
    norm_num [gateFrame]
  have hm : midiOfFreq (fun _ : ℚ => (-439/50 : ℚ)) 1 = -909/25 := by
    norm_num [midiOfFreq]
  have hfreq : (crepePost (fun _ => -439/50) 16000 512 "tiny"
      [((1 : ℚ), (9/10 : ℚ))]).frequency.getD 0 0 = pyRound 1 2 := by
    rw [List.getD_eq_getElem?_getD, crepePost_frequency_getElem?]
    simp only [List.getElem?_cons_zero, Option.map_some', Option.getD_some,
      Nat.mul_zero, hg]
    norm_num
  have hmidi : (crepePost (fun _ => -439/50) 16000 512 "tiny"
      [((1 : ℚ), (9/10 : ℚ))]).midi.getD 0 0 = 0 := by
    rw [List.getD_eq_getElem?_getD, crepePost_midi_getElem?]
    simp only [List.getElem?_cons_zero, Option.map_some', Option.getD_some,
      Nat.mul_zero, hg, hm]
    norm_num
  have hone : pyRound 1 2 = 1 := by
    unfold pyRound
    rw [roundHalfEven_eq_low (f := 100) (by norm_num) (by norm_num)]
    norm_num
  have hrhs : pyRound (69 + 12 * ((fun _ : ℚ => (-439/50 : ℚ)) (1 / 440))) 2
      = -909/25 := by
    have harg : (69 + 12 * ((fun _ : ℚ => (-439/50 : ℚ)) (1 / 440)) : ℚ)
        = -909/25 := by norm_num
    rw [harg]
    unfold pyRound
    rw [roundHalfEven_eq_low (f := -3636) (by norm_num) (by norm_num)]
    norm_num
  rw [hfreq, hone, hmidi, hrhs]
  norm_num

/-- Witness for C8 (amended): a raw frame at 440 Hz with confidence 0.9
yields reported frequency 440 and midi `69 + 12·log2(1) = 69` (with the
abstract log2 evaluating to 0 at 1). -/
theorem midi_formula_witness :
    0 < (crepePost (fun _ => 0) 16000 512 "tiny"
        [((440 : ℚ), (9/10 : ℚ))]).frequency.getD 0 0 ∧
    (crepePost (fun _ => 0) 16000 512 "tiny"
        [((440 : ℚ), (9/10 : ℚ))]).midi.getD 0 0 = 69 := by
  have hg : gateFrame ((440 : ℚ), (9/10 : ℚ)) = 440 := by
    norm_num [gateFrame]
  have hfreq : 0 < (crepePost (fun _ => 0) 16000 512 "tiny"
      [((440 : ℚ), (9/10 : ℚ))]).frequency.getD 0 0 := by
    rw [List.getD_eq_getElem?_getD, crepePost_frequency_getElem?]
    simp only [List.getElem?_cons_zero, Option.map_some', Option.getD_some,
      Nat.mul_zero, hg]
    rw [if_pos (by norm_num)]
    unfold pyRound
    rw [roundHalfEven_eq_low (f := 44000) (by norm_num) (by norm_num)]
    norm_num
  refine ⟨hfreq, ?_⟩
  rw [midi_formula (fun _ => 0) 16000 512 "tiny" [((440 : ℚ), (9/10 : ℚ))] 0
    hfreq]
  rw [if_pos (by norm_num)]
  have harg : (69 + 12 * (0 : ℚ) : ℚ) = 69 := by norm_num
  have : pyRound (69 + 12 * 0) 2 = 69 := by
    rw [harg]
    unfold pyRound
    rw [roundHalfEven_eq_low (f := 6900) (by norm_num) (by norm_num)]
    norm_num
  simpa using this

/-- C9 (amended): the reported `voiced_percent` is
`100 · count(frequency>0 and confidence>0.5) / total_frame_count`
computed over the full un-decimated raw frame sequence before the
confidence gate — rounded to 1 decimal for reporting, which the original
claim omits.  The python code yields NaN on an empty frame sequence, so
nonemptiness is assumed. -/
theorem voiced_percent_formula (L : ℚ → ℚ) (cuda mps : Bool) (sr0 : ℚ)
    (hop : ℕ) (mc : String) (out : Option String) (frames : List (ℚ × ℚ))
    (hne : frames ≠ []) :
    (crepeResult L cuda mps sr0 hop mc out frames).voiced_percent
      = pyRound (100 * ((frames.countP fun p => decide (isVoiced p)) : ℚ)
          / frames.length) 1 := by
  simp only [crepeResult]
  congr 1
  rw [List.countP_eq_length_filter]
  ring

/-- Counterexample for C9: three raw frames, one voiced, give
`100·1/3 = 33.333…`, but the runner reports the 1-decimal rounding
33.3. -/
theorem voiced_percent_counterexample :
    (crepeResult (fun _ => 0) false false 16000 512 "tiny" none
        [((100 : ℚ), (9/10 : ℚ)), (0, 0), (0, 0)]).voiced_percent
      ≠ 100 * (([((100 : ℚ), (9/10 : ℚ)), (0, 0), (0, 0)].countP
          fun p => decide (isVoiced p)) : ℚ)
          / ([((100 : ℚ), (9/10 : ℚ)), (0, 0), (0, 0)] :
              List (ℚ × ℚ)).length := by
  have hcount : ([((100 : ℚ), (9/10 : ℚ)), (0, 0), (0, 0)].countP
      fun p => decide (isVoiced p)) = 1 := by
    simp only [List.countP_cons, List.countP_nil]
    norm_num [isVoiced]
  have hfilter : ([((100 : ℚ), (9/10 : ℚ)), (0, 0), (0, 0)].filter
      fun p => decide (isVoiced p)) = [((100 : ℚ), (9/10 : ℚ))] := by
    simp only [List.filter_cons, List.filter_nil]
    norm_num [isVoiced]
  have hlhs : (crepeResult (fun _ => 0) false false 16000 512 "tiny" none
      [((100 : ℚ), (9/10 : ℚ)), (0, 0), (0, 0)]).voiced_percent
      = 333/10 := by
    simp only [crepeResult, hfilter]
    have harg : ((([((100 : ℚ), (9/10 : ℚ))] : List (ℚ × ℚ)).length : ℚ)
        / (([((100 : ℚ), (9/10 : ℚ)), (0, 0), (0, 0)] :
            List (ℚ × ℚ)).length : ℚ) * 100 : ℚ) = 100/3 := by
      norm_num
    rw [harg]
    unfold pyRound
    rw [roundHalfEven_eq_low (f := 333) (by norm_num [Int.floor_eq_iff])
      (by norm_num)]
    norm_num
  rw [hlhs, hcount]
  norm_num

/-- Witness for C9 (amended): three raw frames, two voiced, give
`round(100·2/3, 1) = 66.7`. -/
theorem voiced_percent_formula_witness :
    (crepeResult (fun _ => 0) false false 16000 512 "tiny" none
        [((100 : ℚ), (9/10 : ℚ)), (200, 1), (0, 0)]).voiced_percent
      = 667/10 := by
  rw [voiced_percent_formula (fun _ => 0) false false 16000 512 "tiny" none
    [((100 : ℚ), (9/10 : ℚ)), (200, 1), (0, 0)] (by simp)]
  have hcount : ([((100 : ℚ), (9/10 : ℚ)), (200, 1), (0, 0)].countP
      fun p => decide (isVoiced p)) = 2 := by
    simp only [List.countP_cons, List.countP_nil]
    norm_num [isVoiced]
  rw [hcount]
  have harg : (100 * ((2 : ℕ) : ℚ)
      / ([((100 : ℚ), (9/10 : ℚ)), (200, 1), (0, 0)] :
          List (ℚ × ℚ)).length : ℚ) = 200/3 := by
    norm_num
  rw [harg]
  unfold pyRound
  rw [roundHalfEven_eq_high (f := 666) (by norm_num [Int.floor_eq_iff])
    (by norm_num)]
  norm_num

/-- C6 (amended): when no raw frame has positive frequency together
with confidence of at least 0.5 (in particular on fully-unvoiced
estimation output), the pitch job still produces a well-formed success
result with `voiced_percent = 0`, `avg_confidence = 0`, and all output
frequency and midi values 0.  The original claim's weaker premise —
no frame with confidence strictly above 0.5 — is not enough, because the
gate only zeroes frames with confidence strictly below 0.5, so a frame
at exactly 0.5 keeps a positive frequency while counting as unvoiced. -/
theorem unvoiced_zero (L : ℚ → ℚ) (cuda mps : Bool) (sr0 : ℚ) (hop : ℕ)
    (mc : String) (out : Option String) (frames : List (ℚ × ℚ))
    (hne : frames ≠ [])
    (hunv : ∀ p ∈ frames, p.2 < 1/2 ∨ p.1 ≤ 0) :
    (crepeResult L cuda mps sr0 hop mc out frames).voiced_percent = 0 ∧
    (crepeResult L cuda mps sr0 hop mc out frames).avg_confidence = 0 ∧
    (∀ q ∈ (crepePost L sr0 hop mc frames).frequency, q = 0) ∧
    (∀ q ∈ (crepePost L sr0 hop mc frames).midi, q = 0) := by
  have hfilter : frames.filter (fun p => decide (isVoiced p)) = [] := by
    rw [List.filter_eq_nil]
    intro p hp
    simp only [decide_eq_true_eq]
    rcases hunv p hp with h | h
    · exact fun hv => absurd hv.2 (by linarith)
    · exact fun hv => absurd hv.1 (not_lt.mpr h)
  have hgle : ∀ g ∈ frames.map gateFrame, g ≤ 0 := by
    intro g hg
    obtain ⟨p, hp, rfl⟩ := List.mem_map.mp hg
    rcases hunv p hp with h | h
    · simp only [gateFrame]
      rw [if_pos h]
    · simp only [gateFrame]
      split
      · exact le_refl 0
      · exact h
  refine ⟨?_, ?_, ?_, ?_⟩
  · simp only [crepeResult, hfilter, List.length_nil]
    norm_num [pyRound_zero]
  · simp only [crepeResult, hfilter, List.length_nil]
    norm_num [pyRound_zero]
  · intro q hq
    simp only [crepePost, List.mem_map] at hq
    obtain ⟨g, hgmem, rfl⟩ := hq
    have hg := hgle g (decim4_subset _ g hgmem)
    rw [if_neg (not_lt.mpr hg)]
  · intro q hq
    simp only [crepePost, List.mem_map] at hq
    obtain ⟨m, hmmem, rfl⟩ := hq
    have hm := decim4_subset _ m hmmem
    obtain ⟨g, hgmem, rfl⟩ := List.mem_map.mp hm
    have hg := hgle g hgmem
    have hz : midiOfFreq L g = 0 := by
      rw [midiOfFreq, if_neg (not_lt.mpr hg)]
    rw [hz]
    norm_num

/-- Counterexample for C6: a single frame with frequency 100 and
confidence exactly 0.5 is not voiced (so `voiced_percent = 0`), yet it
survives the gate (which fires only below 0.5) and the output frequency
is 100, not 0. -/
theorem unvoiced_zero_counterexample :
    ¬ isVoiced ((100 : ℚ), (1/2 : ℚ)) ∧
    (crepeResult (fun _ => 0) false false 16000 512 "tiny" none
        [((100 : ℚ), (1/2 : ℚ))]).voiced_percent = 0 ∧
    (crepePost (fun _ => 0) 16000 512 "tiny"
        [((100 : ℚ), (1/2 : ℚ))]).frequency.getD 0 0 ≠ 0 := by
  refine ⟨by norm_num [isVoiced], ?_, ?_⟩
  · have hfilter : ([((100 : ℚ), (1/2 : ℚ))].filter
        fun p => decide (isVoiced p)) = [] := by
      simp only [List.filter_cons, List.filter_nil]
      norm_num [isVoiced]
    simp only [crepeResult, hfilter, List.length_nil]
    norm_num [pyRound_zero]
  · have hg : gateFrame ((100 : ℚ), (1/2 : ℚ)) = 100 := by
      norm_num [gateFrame]
    rw [List.getD_eq_getElem?_getD, crepePost_frequency_getElem?]
    simp only [Nat.mul_zero, List.getElem?_cons_zero, Option.map_some',
      Option.getD_some, hg]
    rw [if_pos (by norm_num)]
    have h100 : pyRound 100 2 = 100 := by
      unfold pyRound
      rw [roundHalfEven_eq_low (f := 10000) (by norm_num) (by norm_num)]
      norm_num
    rw [h100]
    norm_num

/-- Witness for C6 (amended): two frames, both with confidence below
0.5, one of frequency 0 and one of frequency 100, give a zeroed
well-formed result. -/
theorem unvoiced_zero_witness :
    (crepeResult (fun _ => 0) false false 16000 512 "tiny" none
        [((0 : ℚ), (3/10 : ℚ)), ((100 : ℚ), (2/5 : ℚ))]).voiced_percent
      = 0 ∧
    (crepeResult (fun _ => 0) false false 16000 512 "tiny" none
        [((0 : ℚ), (3/10 : ℚ)), ((100 : ℚ), (2/5 : ℚ))]).avg_confidence
      = 0 ∧
    (∀ q ∈ (crepePost (fun _ => 0) 16000 512 "tiny"
        [((0 : ℚ), (3/10 : ℚ)), ((100 : ℚ), (2/5 : ℚ))]).frequency,
      q = 0) ∧
    (∀ q ∈ (crepePost (fun _ => 0) 16000 512 "tiny"
        [((0 : ℚ), (3/10 : ℚ)), ((100 : ℚ), (2/5 : ℚ))]).midi, q = 0) :=
  unvoiced_zero (fun _ => 0) false false 16000 512 "tiny" none
    [((0 : ℚ), (3/10 : ℚ)), ((100 : ℚ), (2/5 : ℚ))] (by simp)
    (by
      intro p hp
      simp only [List.mem_cons, List.not_mem_nil, or_false] at hp
      rcases hp with rfl | rfl
      · left
        norm_num
      · left
        norm_num)

/-- C10: the emitted/persisted `pitch_data` object reports
`hop_length = 4 · requested hop length` (so 2048 for the default request
value 512) and `sample_rate = 16000`, the model's resampled rate,
regardless of the input file's original sample rate; when no output path
is given this very object is embedded in the result payload. -/
theorem pitch_metadata (L : ℚ → ℚ) (cuda mps : Bool) (sr0 : ℚ) (hop : ℕ)
    (mc : String) (frames : List (ℚ × ℚ)) :
    (crepePost L sr0 hop mc frames).hop_length = 4 * hop ∧
    (crepePost L sr0 hop mc frames).sample_rate = 16000 ∧
    (crepeResult L cuda mps sr0 hop mc none frames).pitch_data
      = some (crepePost L sr0 hop mc frames) := by
  refine ⟨?_, ?_, ?_⟩
  · simp [crepePost, Nat.mul_comm]
  · simp only [crepePost]
    unfold crepeNormalizeRate
    split
    · rfl
    · rename_i h
      push_neg at h
      exact h
  · simp [crepeResult]

/-- C1 (amended): pitch device selection forces CPU only relative to the
vendor accelerator: when CUDA is available the pitch job selects and
reports CUDA; without CUDA it selects CPU even when MPS is available,
and the MPS device is never selected.  The selected device is the one
reported in the result. -/
theorem pitch_device (L : ℚ → ℚ) (cuda mps : Bool) (sr0 : ℚ) (hop : ℕ)
    (mc : String) (out : Option String) (frames : List (ℚ × ℚ)) :
    (crepeResult L cuda mps sr0 hop mc out frames).device
        = (if cuda then "cuda" else "cpu") ∧
    crepeSelectDevice false mps = "cpu" ∧
    crepeSelectDevice cuda mps ≠ "mps" := by
  refine ⟨?_, rfl, ?_⟩
  · simp [crepeResult, crepeSelectDevice]
  · unfold crepeSelectDevice
    split
    · decide
    · decide

/-- Counterexample for C1: with CUDA available the pitch job selects and
reports "cuda", not "cpu". -/
theorem pitch_device_counterexample :
    (crepeResult (fun _ => 0) true true 16000 512 "tiny" none []).device
      ≠ "cpu" := by
  have h : (crepeResult (fun _ => 0) true true 16000 512 "tiny" none
      []).device = "cuda" := rfl
  rw [h]
  decide
